import Mathlib

/-!
Verification of the gocryptfs name-transformation layer, directory-IV
cache, and mount-time flag handling, shallowly embedded from the Go
source (`internal/nametransform/names_diriv.go`, padding helpers, and
`main.go`).  Go byte slices are modelled as `List Nat`, Go strings as
`List Char`, and the backing file system as a partial map from paths to
file contents.  Functions that can `panic` in Go return a result type
with an explicit `panicked` constructor.
-/

/-- Go `aes.BlockSize` (16 bytes). -/
def aesBlockSize : Nat := 16

/-- Result of `unPad16`: a successful unpadded value, one of the error
returns of the Go function (the Go error messages carry an index or a
length; we keep those numbers and drop the message text), or a runtime
panic (out-of-range slice index). -/
inductive UnpadResult where
  | ok (b : List Nat)
  | unalignedErr
  | zeroPaddingErr
  | tooLongErr (padLen : Nat)
  | paddingByteErr
  | zeroLenErr
  | panicked
  deriving DecidableEq, Repr

/-- `pad16(orig)` from `names.go`: PKCS#7-pad to a 16-byte multiple.
The Go function panics on zero-length input (`none` here); otherwise it
appends `padLen` copies of the byte `padLen`, where
`padLen = 16 - len(orig) % 16` (the dead `if padLen == 0` branch of the
source is kept). -/
def pad16 (orig : List Nat) : Option (List Nat) :=
  let oldLen := orig.length
  if oldLen = 0 then
    none
  else
    let padLen := aesBlockSize - oldLen % aesBlockSize
    let padLen := if padLen = 0 then aesBlockSize else padLen
    some (orig ++ List.replicate padLen padLen)

/-- `unPad16(padded)` from `names.go`.  The checks appear in source
order: length alignment, then the read of `padded[oldLen-1]` (which in
Go panics when `oldLen = 0`, since `0 % 16 == 0` passes the alignment
check), then `padLen <= 0`, `padLen > 16`, the uniformity scan of the
trailing `padLen` bytes, and finally the `newLen == 0` check. -/
def unPad16 (padded : List Nat) : UnpadResult :=
  let oldLen := padded.length
  if oldLen % aesBlockSize ≠ 0 then
    .unalignedErr
  else
    match padded.getLast? with
    | none => .panicked
    | some padByte =>
      let padLen := padByte
      if padLen = 0 then
        .zeroPaddingErr
      else if padLen > aesBlockSize then
        .tooLongErr padLen
      else if ¬ (padded.drop (oldLen - padLen)).all (· = padByte) then
        .paddingByteErr
      else
        let newLen := oldLen - padLen
        if newLen = 0 then
          .zeroLenErr
        else
          .ok (padded.take newLen)

/-- Go strings, modelled as lists of characters. -/
abbrev GoStr := List Char

/-- The backing file system, as a partial map from (ciphertext) paths to
file contents. -/
abbrev FileMap := GoStr → Option (List Nat)

/-- `dirIVLen` from `names_diriv.go` (identical to the AES block size). -/
def dirIVLen : Nat := 16

/-- `DirIVFilename = "gocryptfs.diriv"` from `names_diriv.go`. -/
def DirIVFilename : GoStr :=
  ['g', 'o', 'c', 'r', 'y', 'p', 't', 'f', 's', '.', 'd', 'i', 'r', 'i', 'v']

/-- The one-entry DirIV cache of `names_diriv.go` (`dirIVCache`); the
`sync.RWMutex` field is omitted (we model the sequential semantics the
lock enforces). -/
structure dirIVCache where
  cleared : Bool
  iv : List Nat
  dir : GoStr
  translatedDir : GoStr
  deriving DecidableEq, Repr

/-- `(*dirIVCache).lookup(dir)`: returns `(true, c.iv, c.translatedDir)`
when not cleared and the stored directory matches, `(false, nil, "")`
otherwise (`nil` and `""` both become `[]` here). -/
def dirIVCache.lookup (c : dirIVCache) (dir : GoStr) : Bool × List Nat × GoStr :=
  if ¬ c.cleared ∧ c.dir = dir then (true, c.iv, c.translatedDir)
  else (false, [], [])

/-- `(*dirIVCache).store(dir, iv, translatedDir)`: overwrites every
field and resets `cleared`. -/
def dirIVCache.store (_c : dirIVCache) (dir : GoStr) (iv : List Nat)
    (translatedDir : GoStr) : dirIVCache :=
  { cleared := false, iv := iv, dir := dir, translatedDir := translatedDir }

/-- `(*dirIVCache).Clear()`: sets the `cleared` flag. -/
def dirIVCache.Clear (c : dirIVCache) : dirIVCache :=
  { c with cleared := true }

/-- The Go zero value of `dirIVCache{}`: `cleared = false`, `iv = nil`,
`dir = ""`, `translatedDir = ""`. -/
def zeroDirIVCache : dirIVCache :=
  { cleared := false, iv := [], dir := [], translatedDir := [] }

/-- Go `strings.Split(s, "/")`. -/
def splitOnSlash : GoStr → List GoStr
  | [] => [[]]
  | c :: rest =>
    if c = '/' then [] :: splitOnSlash rest
    else
      match splitOnSlash rest with
      | [] => [[c]]
      | h :: t => (c :: h) :: t

/-- Go `strings.Join(l, "/")`. -/
def joinSlash : List GoStr → GoStr
  | [] => []
  | [n] => n
  | n :: m :: rest => n ++ '/' :: joinSlash (m :: rest)

/-- Go `filepath.Dir`, on the clean relative paths the frontend passes
(no leading, trailing or duplicate slashes, no `.`/`..` components):
everything before the final slash, or `"."` when there is no slash. -/
def filepathDir (p : GoStr) : GoStr :=
  match splitOnSlash p with
  | [_] => ['.']
  | l => joinSlash l.dropLast

/-- Go `filepath.Base`, on clean nonempty relative paths: the component
after the final slash. -/
def filepathBase (p : GoStr) : GoStr :=
  match (splitOnSlash p).getLast? with
  | some b => b
  | none => []

/-- Go `filepath.Join(a, b)` for a clean `a` and a nonempty slash-free
`b`. -/
def filepathJoin (a b : GoStr) : GoStr :=
  if a = [] then b else a ++ '/' :: b

/-- The two error returns of `ReadDirIV`: the `ioutil.ReadFile` failure
(propagated as-is in Go) and the invalid-length error carrying the
actual length. -/
inductive DirIVErr where
  | readFailed
  | invalidLen (n : Nat)
  deriving DecidableEq, Repr

/-- `(*NameTransform).ReadDirIV(dir)`: read `dir/gocryptfs.diriv`; fail
if the read fails or the content is not exactly `dirIVLen` bytes.  The
Go function returns `(nil, err)` on failure; `nil` becomes `[]`. -/
def ReadDirIV (fs : FileMap) (dir : GoStr) : List Nat × Option DirIVErr :=
  let ivfile := filepathJoin dir DirIVFilename
  match fs ivfile with
  | none => ([], some .readFailed)
  | some iv =>
    if iv.length ≠ dirIVLen then ([], some (.invalidLen iv.length))
    else (iv, none)

/-- The directory-walk loop of `EncryptPathDirIV` (lines 112-124 of
`names_diriv.go`): read the DirIV of the working directory, encrypt the
component, descend.  `curIv` is the loop variable `iv` (initially `nil`
from the failed cache lookup); the result carries the encrypted names
and the final `iv`, together with the list of `gocryptfs.diriv` paths
read (the read trace). -/
def pathWalk (fs : FileMap) (encName : GoStr → List Nat → GoStr) :
    GoStr → List Nat → List GoStr →
    Except DirIVErr (List GoStr × List Nat) × List GoStr
  | _, curIv, [] => (.ok ([], curIv), [])
  | wd, _, plainName :: rest =>
    let ivfile := filepathJoin wd DirIVFilename
    match ReadDirIV fs wd with
    | (_, some e) => (.error e, [ivfile])
    | (iv, none) =>
      let encryptedName := encName plainName iv
      let (res, tr) := pathWalk fs encName (filepathJoin wd encryptedName) iv rest
      (res.map fun q => (encryptedName :: q.1, q.2), ivfile :: tr)

/-- `(*NameTransform).EncryptPathDirIV(plainPath, rootDir)`.  The
`encName` parameter abstracts `(*NameTransform).encryptName` (defined in
`names.go`, outside this snapshot).  Output: the Go pair
`(cipherPath, err)` (`""`/`nil` become `[]`/`none`), the cache after the
call, and the trace of `gocryptfs.diriv` files read. -/
def EncryptPathDirIV (fs : FileMap) (encName : GoStr → List Nat → GoStr)
    (cache : dirIVCache) (plainPath rootDir : GoStr) :
    (GoStr × Option DirIVErr) × dirIVCache × List GoStr :=
  if plainPath = [] then ((plainPath, none), cache, [])
  else
    let parentDir := filepathDir plainPath
    let (found, iv, cParentDir) := cache.lookup parentDir
    if found then
      let baseName := filepathBase plainPath
      let cBaseName := encName baseName iv
      ((cParentDir ++ '/' :: cBaseName, none), cache, [])
    else
      let plainNames := splitOnSlash plainPath
      let (res, tr) := pathWalk fs encName rootDir [] plainNames
      match res with
      | .error e => (([], some e), cache, tr)
      | .ok (encryptedNames, lastIv) =>
        let cipherPath := joinSlash encryptedNames
        let cParentDir2 := filepathDir cipherPath
        ((cipherPath, none), cache.store parentDir lastIv cParentDir2, tr)

/-- The two mutating operations of the DirIV cache. -/
inductive CacheOp where
  | storeOp (dir : GoStr) (iv : List Nat) (translatedDir : GoStr)
  | clearOp
  deriving DecidableEq, Repr

/-- Run one cache operation. -/
def applyOp (c : dirIVCache) : CacheOp → dirIVCache
  | .storeOp d iv t => c.store d iv t
  | .clearOp => c.Clear

/-- Run a sequence of cache operations, oldest first. -/
def applyOps (c : dirIVCache) (ops : List CacheOp) : dirIVCache :=
  ops.foldl applyOp c

/-- The arguments of the most recent `store` in the sequence, if any. -/
def lastStore : List CacheOp → Option (GoStr × List Nat × GoStr)
  | [] => none
  | op :: rest =>
    match lastStore rest with
    | some x => some x
    | none =>
      match op with
      | .storeOp d iv t => some (d, iv, t)
      | .clearOp => none

/-- Whether the final operation of the sequence is a `Clear`. -/
def lastIsClear (ops : List CacheOp) : Bool :=
  match ops.getLast? with
  | some .clearOp => true
  | _ => false

/-- The fields of `argContainer` (from `main.go`) that
`initFuseFrontend` reads. -/
structure CliArgs where
  plaintextnames : Bool
  diriv : Bool
  emenames : Bool
  gcmiv128 : Bool
  openssl : Bool
  cipherdir : GoStr
  deriving Repr

/-- The results of `confFile.IsFeatureFlagSet` on the four feature
flags of the loaded config file. -/
structure ConfFileFlags where
  flagPlaintextNames : Bool
  flagDirIV : Bool
  flagEMENames : Bool
  flagGCMIV128 : Bool
  deriving DecidableEq, Repr

/-- The `fusefrontend.Args` struct as filled in by `initFuseFrontend`. -/
structure FrontendArgs where
  cipherdir : GoStr
  masterkey : List Nat
  openSSL : Bool
  plaintextNames : Bool
  dirIV : Bool
  emeNames : Bool
  gcmIV128 : Bool
  deriving Repr

/-- The argument-reconciliation prefix of `initFuseFrontend` (lines
329-358 of `main.go`): build `frontendArgs` from the CLI flags, let the
config file (when present) override the four feature flags, then apply
the two normalization steps (`EMENames ⟹ DirIV` and
`PlaintextNames ⟹ ¬DirIV ∧ ¬EMENames`). -/
def initFuseFrontendArgs (key : List Nat) (args : CliArgs)
    (confFile : Option ConfFileFlags) : FrontendArgs :=
  let fa : FrontendArgs :=
    { cipherdir := args.cipherdir, masterkey := key, openSSL := args.openssl,
      plaintextNames := args.plaintextnames, dirIV := args.diriv,
      emeNames := args.emenames, gcmIV128 := args.gcmiv128 }
  let fa :=
    match confFile with
    | none => fa
    | some cf =>
      { fa with plaintextNames := cf.flagPlaintextNames, dirIV := cf.flagDirIV,
                emeNames := cf.flagEMENames, gcmIV128 := cf.flagGCMIV128 }
  let fa := if fa.emeNames then { fa with dirIV := true } else fa
  let fa :=
    if fa.plaintextNames then { fa with dirIV := false, emeNames := false }
    else fa
  fa

/-- Exit codes from `main.go`. -/
def ERREXIT_USAGE : Nat := 1

def ERREXIT_MOUNT : Nat := 3

def ERREXIT_CIPHERDIR : Nat := 6

def ERREXIT_INIT : Nat := 7

def ERREXIT_LOADCONF : Nat := 8

def ERREXIT_PASSWORD : Nat := 9

def ERREXIT_MOUNTPOINT : Nat := 10

/-- The failure modes of `configfile.LoadConfFile` (outside this
snapshot); an AEAD tag failure on the wrapped key is the wrong-password
case. -/
inductive LoadConfErr where
  | wrongPassword
  | corruptConfig
  | unsupportedVersion
  deriving DecidableEq, Repr

/-- `loadConfig` from `main.go` (lines 96-119).  The two external calls
are abstracted as inputs: `statOk` is whether `os.Stat(args.config)`
succeeded, `loadResult` the outcome of `configfile.LoadConfFile`.
`Sum.inl code` models `os.Exit(code)`, `Sum.inr` the successful return
of `(masterkey, confFile)`. -/
def loadConfig (statOk : Bool)
    (loadResult : Except LoadConfErr (List Nat × ConfFileFlags)) :
    Sum Nat (List Nat × ConfFileFlags) :=
  if ¬ statOk then .inl ERREXIT_LOADCONF
  else
    match loadResult with
    | .error _ => .inl ERREXIT_LOADCONF
    | .ok r => .inr r

/-- A concrete injective-enough name-encryption function for witnesses
and counterexamples: prefix the plaintext name with `c`. -/
def encNameC : GoStr → List Nat → GoStr := fun n _ => 'c' :: n

/-- A concrete one-directory file system: root `"r"` holds a valid
16-byte `gocryptfs.diriv`. -/
def fsA : FileMap := fun p =>
  if p = filepathJoin ['r'] DirIVFilename then some (List.replicate 16 0)
  else none

/-- A concrete file system with no `gocryptfs.diriv` file anywhere. -/
def fsNone : FileMap := fun _ => none

/-- A concrete two-level file system: root `"r"` and its subdirectory
`"r/ca"` (the `encNameC`-encryption of `"a"`) each hold a valid 16-byte
`gocryptfs.diriv`. -/
def fsAB : FileMap := fun p =>
  if p = filepathJoin ['r'] DirIVFilename then some (List.replicate 16 0)
  else if p = filepathJoin (filepathJoin ['r'] ['c', 'a']) DirIVFilename then
    some (List.replicate 16 1)
  else none

/-- A concrete name-encryption function whose outputs never contain a
slash (as for the base64url encoding of the real `encryptName`): prefix
with `c` after filtering slashes out. -/
def encNameF : GoStr → List Nat → GoStr :=
  fun n _ => 'c' :: n.filter (fun c => ¬ c = '/')

example : pad16 [5] = some (5 :: List.replicate 15 15) := by decide
example : unPad16 (5 :: List.replicate 15 15) = .ok [5] := by decide
example : unPad16 [] = .panicked := by decide
example : unPad16 [1] = .unalignedErr := by decide
example : unPad16 (List.replicate 16 0) = .zeroPaddingErr := by decide
example : unPad16 (List.replicate 16 17) = .tooLongErr 17 := by decide
example : unPad16 (List.replicate 14 1 ++ [1, 2]) = .paddingByteErr := by decide
example : unPad16 (List.replicate 16 16) = .zeroLenErr := by decide

/-- The last element of a list extended by a nonempty replicate block. -/
lemma getLast?_append_replicate (b : List Nat) (k a : Nat) (hk : k ≠ 0) :
    (b ++ List.replicate k a).getLast? = some a := by
  obtain ⟨m, rfl⟩ : ∃ m, k = m + 1 := ⟨k - 1, by omega⟩
  rw [List.replicate_succ', ← List.append_assoc, List.getLast?_concat]

/-- Unfolding lemma: the successful branch of `unPad16`. -/
lemma unPad16_eq_ok (p : List Nat) (padByte : Nat)
    (hmod : p.length % 16 = 0)
    (hlast : p.getLast? = some padByte)
    (h1 : padByte ≠ 0) (h16 : ¬ padByte > 16)
    (hall : (p.drop (p.length - padByte)).all (· = padByte) = true)
    (hne : p.length - padByte ≠ 0) :
    unPad16 p = .ok (p.take (p.length - padByte)) := by
  unfold unPad16
  rw [if_neg (by simp [aesBlockSize, hmod]), hlast]
  simp only [aesBlockSize]
  rw [if_neg h1, if_neg h16, if_neg (by simp [hall]), if_neg hne]

/-- Inversion: what must hold when `unPad16` succeeds. -/
lemma unPad16_ok_inv (p b : List Nat) (h : unPad16 p = .ok b) :
    ∃ padByte, p.getLast? = some padByte ∧ padByte ≠ 0 ∧ ¬ padByte > 16 ∧
      p.length - padByte ≠ 0 ∧ b = p.take (p.length - padByte) := by
  unfold unPad16 at h
  simp only [aesBlockSize] at h
  split at h
  · exact absurd h (by simp)
  · split at h
    · exact absurd h (by simp)
    · next padByte hlast =>
      split at h
      · exact absurd h (by simp)
      · next h1 =>
        split at h
        · exact absurd h (by simp)
        · next h16 =>
          split at h
          · exact absurd h (by simp)
          · split at h
            · exact absurd h (by simp)
            · next hne =>
              exact ⟨padByte, hlast, h1, h16, hne, by cases h; rfl⟩


/-- C1.  Padding round-trip: for every non-empty byte sequence `b`,
`pad16 b` succeeds (no panic), its result has length a positive multiple
of 16, strictly greater than `b.length` and at most `b.length + 16`, and
`unPad16 (pad16 b)` returns exactly `b`. -/
theorem pad16_unPad16_roundTrip (b : List Nat) (hb : b ≠ []) :
    ∃ p, pad16 b = some p ∧ p.length % 16 = 0 ∧ 0 < p.length ∧
      b.length < p.length ∧ p.length ≤ b.length + 16 ∧ unPad16 p = .ok b := by
  have hlen : b.length ≠ 0 := fun h => hb (List.eq_nil_of_length_eq_zero h)
  have hr : b.length % 16 < 16 := Nat.mod_lt _ (by norm_num)
  have hd : b.length % 16 ≤ b.length := Nat.mod_le _ _
  set padLen := 16 - b.length % 16 with hpl
  have hplne : padLen ≠ 0 := by omega
  refine ⟨b ++ List.replicate padLen padLen, ?_, ?_, ?_, ?_, ?_, ?_⟩
  · unfold pad16
    rw [if_neg hlen]
    simp only [aesBlockSize]
    rw [if_neg hplne]
  · simp only [List.length_append, List.length_replicate]
    omega
  · simp only [List.length_append, List.length_replicate]
    omega
  · simp only [List.length_append, List.length_replicate]
    omega
  · simp only [List.length_append, List.length_replicate]
    omega
  · have hlast := getLast?_append_replicate b padLen padLen hplne
    have hsub : (b ++ List.replicate padLen padLen).length - padLen = b.length := by
      simp only [List.length_append, List.length_replicate]
      omega
    have htake : (b ++ List.replicate padLen padLen).take b.length = b :=
      List.take_left b _
    have hdrop : (b ++ List.replicate padLen padLen).drop b.length =
        List.replicate padLen padLen := List.drop_left b _
    have hall : ((b ++ List.replicate padLen padLen).drop
        ((b ++ List.replicate padLen padLen).length - padLen)).all
        (· = padLen) = true := by
      rw [hsub, hdrop]
      simp [List.all_eq_true, List.eq_of_mem_replicate]
    have := unPad16_eq_ok (b ++ List.replicate padLen padLen) padLen
      (by simp only [List.length_append, List.length_replicate]; omega)
      hlast hplne (by omega) hall (by rw [hsub]; exact hlen)
    rw [this, hsub, htake]

/-- C1 witness: the round-trip at the concrete input `[5]`. -/
theorem pad16_unPad16_roundTrip_w :
    ∃ p, pad16 [5] = some p ∧ p.length % 16 = 0 ∧ 0 < p.length ∧
      List.length [5] < p.length ∧ p.length ≤ List.length [5] + 16 ∧
      unPad16 p = .ok [5] :=
  pad16_unPad16_roundTrip [5] (by decide)

/-- C2.  On the empty byte sequence (length 0, which is not a positive
multiple of 16), `unPad16` does not return an error: it passes the
`len % 16 != 0` check (0 % 16 == 0) and then reads `padded[-1]`, a
runtime panic. -/
theorem unPad16_empty_input_panics : unPad16 [] = .panicked := by decide

/-- C10.  Whenever `unPad16` succeeds, the returned plaintext is
non-empty and strictly shorter than the input. -/
theorem unPad16_ok_nonempty_shorter (p b : List Nat)
    (h : unPad16 p = .ok b) : b ≠ [] ∧ b.length < p.length := by
  obtain ⟨padByte, _, h1, h16, hne, rfl⟩ := unPad16_ok_inv p b h
  constructor
  · intro hnil
    have := congrArg List.length hnil
    simp only [List.length_take, List.length_nil] at this
    omega
  · have hlt : p.length - padByte < p.length := by omega
    calc (p.take (p.length - padByte)).length ≤ p.length - padByte :=
          (List.length_take _ _).le.trans (min_le_left _ _)
      _ < p.length := hlt

/-- C10 witness: at the concrete padded input `[5] ++ 15 × 15`. -/
theorem unPad16_ok_nonempty_shorter_w :
    ([5] : List Nat) ≠ [] ∧
      List.length [5] < (5 :: List.replicate 15 15).length :=
  unPad16_ok_nonempty_shorter (5 :: List.replicate 15 15) [5] (by decide)

/-- C6.  `ReadDirIV` returns an IV (no error) exactly when the
`gocryptfs.diriv` file read succeeds with content of length 16; the IV
returned is that content; on any failure the IV is `nil`. -/
theorem ReadDirIV_sixteen_byte_check (fs : FileMap) (dir : GoStr) :
    ((ReadDirIV fs dir).2 = none ↔
      ∃ iv, fs (filepathJoin dir DirIVFilename) = some iv ∧
        iv.length = dirIVLen) ∧
    ((ReadDirIV fs dir).2 = none →
      fs (filepathJoin dir DirIVFilename) = some (ReadDirIV fs dir).1) ∧
    ((ReadDirIV fs dir).2 ≠ none → (ReadDirIV fs dir).1 = []) := by
  unfold ReadDirIV
  cases hf : fs (filepathJoin dir DirIVFilename) with
  | none => simp [hf]
  | some iv =>
    by_cases hl : iv.length = dirIVLen
    · simp [hf, hl]
    · simp [hf, hl]

/-- C6 witness: `ReadDirIV`'s characterization at the concrete file
system `fsA` and directory `"r"`. -/
theorem ReadDirIV_sixteen_byte_check_w :
    ((ReadDirIV fsA ['r']).2 = none ↔
      ∃ iv, fsA (filepathJoin ['r'] DirIVFilename) = some iv ∧
        iv.length = dirIVLen) ∧
    ((ReadDirIV fsA ['r']).2 = none →
      fsA (filepathJoin ['r'] DirIVFilename) = some (ReadDirIV fsA ['r']).1) ∧
    ((ReadDirIV fsA ['r']).2 ≠ none → (ReadDirIV fsA ['r']).1 = []) :=
  ReadDirIV_sixteen_byte_check fsA ['r']

/-- C8.  On the root path `""`, `EncryptPathDirIV` returns `""` with no
error, leaves the cache untouched, and reads no `gocryptfs.diriv` file
(empty read trace), for every file system, name-encryption function,
cache state and root directory. -/
theorem EncryptPathDirIV_root_identity (fs : FileMap)
    (encName : GoStr → List Nat → GoStr) (cache : dirIVCache)
    (rootDir : GoStr) :
    EncryptPathDirIV fs encName cache [] rootDir = (([], none), cache, []) := by
  simp [EncryptPathDirIV]

/-- C4.  The frontend arguments computed by `initFuseFrontend` always
satisfy `EMENames ⟹ DirIV` and `PlaintextNames ⟹ ¬DirIV ∧ ¬EMENames`,
for every combination of CLI flags and (optional) config-file feature
flags. -/
theorem initFuseFrontend_flag_normalization (key : List Nat)
    (args : CliArgs) (confFile : Option ConfFileFlags) :
    ((initFuseFrontendArgs key args confFile).emeNames = true →
      (initFuseFrontendArgs key args confFile).dirIV = true) ∧
    ((initFuseFrontendArgs key args confFile).plaintextNames = true →
      (initFuseFrontendArgs key args confFile).dirIV = false ∧
      (initFuseFrontendArgs key args confFile).emeNames = false) := by
  rcases args with ⟨pn, dv, em, gc, os, cd⟩
  unfold initFuseFrontendArgs
  rcases confFile with _ | ⟨cpn, cdv, cem, cgc⟩
  · cases pn <;> cases em <;> simp
  · cases cpn <;> cases cem <;> simp

/-- C4 witness: the invariant at a concrete flag combination
(`-emenames` on, `-diriv` off, no config file). -/
theorem initFuseFrontend_flag_normalization_w :
    ((initFuseFrontendArgs [] ⟨false, false, true, true, true, []⟩
        none).emeNames = true →
      (initFuseFrontendArgs [] ⟨false, false, true, true, true, []⟩
        none).dirIV = true) ∧
    ((initFuseFrontendArgs [] ⟨false, false, true, true, true, []⟩
        none).plaintextNames = true →
      (initFuseFrontendArgs [] ⟨false, false, true, true, true, []⟩
        none).dirIV = false ∧
      (initFuseFrontendArgs [] ⟨false, false, true, true, true, []⟩
        none).emeNames = false) :=
  initFuseFrontend_flag_normalization [] ⟨false, false, true, true, true, []⟩ none

/-- C5 counterexample: a mount attempt whose passphrase fails to unlock
the config file (`os.Stat` succeeded, `LoadConfFile` returned the
wrong-password error) does NOT exit with code 9 (`ERREXIT_PASSWORD`):
`loadConfig` calls `os.Exit(ERREXIT_LOADCONF)`. -/
theorem loadConfig_wrongPassword_not_exit9 :
    loadConfig true (.error .wrongPassword) ≠ Sum.inl ERREXIT_PASSWORD := by
  decide

/-- C5 amended: on a wrong password, `loadConfig` exits with code 8
(`ERREXIT_LOADCONF`, config load failure). -/
theorem loadConfig_wrongPassword_exit8 :
    loadConfig true (.error .wrongPassword) = Sum.inl ERREXIT_LOADCONF ∧
      ERREXIT_LOADCONF = 8 := by
  decide

/-- Running one more cache operation after a sequence. -/
lemma applyOps_concat (c : dirIVCache) (l : List CacheOp) (op : CacheOp) :
    applyOps c (l ++ [op]) = applyOp (applyOps c l) op := by
  simp [applyOps, List.foldl_append]

/-- The most recent store of `l ++ [op]`. -/
lemma lastStore_concat (l : List CacheOp) (op : CacheOp) :
    lastStore (l ++ [op]) =
      match op with
      | .storeOp d iv t => some (d, iv, t)
      | .clearOp => lastStore l := by
  induction l with
  | nil => cases op <;> simp [lastStore]
  | cons x xs ih => cases op <;> simp [lastStore, ih]

/-- Whether `l ++ [op]` ends in a `Clear`. -/
lemma lastIsClear_concat (l : List CacheOp) (op : CacheOp) :
    lastIsClear (l ++ [op]) =
      match op with
      | .clearOp => true
      | _ => false := by
  cases op <;> simp [lastIsClear, List.getLast?_concat]

/-- C7 counterexample: on the Go zero value of the cache (no store ever
performed, `cleared = false`, `dir = ""`), `lookup("")` already returns
a hit, so "hit iff `d` equals the directory of the most recent store"
fails on the empty operation sequence. -/
theorem dirIVCache_fresh_lookup_spurious_hit :
    (applyOps zeroDirIVCache []).lookup [] = (true, [], []) ∧
      lastStore ([] : List CacheOp) = none := by
  decide

/-- C7 amended: for every operation sequence containing at least one
store, `lookup d` hits iff the sequence does not end in a `Clear` and
`d` is the directory of the most recent store, in which case it returns
exactly that store's iv and translatedDir; otherwise it misses with
`(false, nil, "")`. -/
theorem dirIVCache_single_slot (ops : List CacheOp) (d₀ : GoStr)
    (iv₀ : List Nat) (t₀ : GoStr)
    (h : lastStore ops = some (d₀, iv₀, t₀)) (d : GoStr) :
    (applyOps zeroDirIVCache ops).lookup d =
      if lastIsClear ops = false ∧ d = d₀ then (true, iv₀, t₀)
      else (false, [], []) := by
  rcases List.eq_nil_or_concat ops with rfl | ⟨l, op, rfl⟩
  · simp [lastStore] at h
  · rw [List.concat_eq_append] at h ⊢
    rw [applyOps_concat]
    cases op with
    | clearOp =>
      rw [lastIsClear_concat]
      simp [applyOp, dirIVCache.Clear, dirIVCache.lookup]
    | storeOp d1 iv1 t1 =>
      rw [lastStore_concat] at h
      cases h
      rw [lastIsClear_concat]
      by_cases hd : d = d₀
      · subst hd
        simp [applyOp, dirIVCache.store, dirIVCache.lookup]
      · simp [applyOp, dirIVCache.store, dirIVCache.lookup, hd, Ne.symm hd]

/-- C7 witness: after a single store of directory `"a"`, looking up the
different directory `"b"` misses. -/
theorem dirIVCache_single_slot_w :
    (applyOps zeroDirIVCache [CacheOp.storeOp ['a'] [1] ['t']]).lookup ['b'] =
      (false, [], []) :=
  (dirIVCache_single_slot [CacheOp.storeOp ['a'] [1] ['t']] ['a'] [1] ['t']
    rfl ['b']).trans (by decide)

/-- Unfolding lemma: on a non-root path whose parent misses the cache,
`EncryptPathDirIV` is the walk — returning `("", err)` with the cache
untouched on walk failure, and the joined encrypted names with a store
of `(parentDir, lastIv, cipherParentDir)` on success. -/
lemma EncryptPathDirIV_miss (fs : FileMap)
    (encName : GoStr → List Nat → GoStr) (cache : dirIVCache)
    (plainPath rootDir : GoStr)
    (hne : plainPath ≠ [])
    (hmiss : (cache.lookup (filepathDir plainPath)).1 = false) :
    EncryptPathDirIV fs encName cache plainPath rootDir =
      match (pathWalk fs encName rootDir [] (splitOnSlash plainPath)).1 with
      | .error e =>
        (([], some e), cache,
          (pathWalk fs encName rootDir [] (splitOnSlash plainPath)).2)
      | .ok (encryptedNames, lastIv) =>
        ((joinSlash encryptedNames, none),
          cache.store (filepathDir plainPath) lastIv
            (filepathDir (joinSlash encryptedNames)),
          (pathWalk fs encName rootDir [] (splitOnSlash plainPath)).2) := by
  rcases hlk : cache.lookup (filepathDir plainPath) with ⟨found, ivv, cpp⟩
  replace hmiss : found = false := by rw [hlk] at hmiss; exact hmiss
  subst hmiss
  rcases hw : pathWalk fs encName rootDir [] (splitOnSlash plainPath)
    with ⟨res, tr⟩
  unfold EncryptPathDirIV
  rw [if_neg hne]
  dsimp only
  rw [hlk, hw]
  cases res with
  | error e => rfl
  | ok p => rcases p with ⟨ens, liv⟩; rfl

/-- C9.  If the cache misses and some `ReadDirIV` during the walk fails,
`EncryptPathDirIV` returns `("", err)` with that error and the cache is
exactly what it was before the call (the store happens only after every
component resolved). -/
theorem EncryptPathDirIV_error_frame (fs : FileMap)
    (encName : GoStr → List Nat → GoStr) (cache : dirIVCache)
    (plainPath rootDir : GoStr) (e : DirIVErr)
    (hne : plainPath ≠ [])
    (hmiss : (cache.lookup (filepathDir plainPath)).1 = false)
    (herr : (pathWalk fs encName rootDir [] (splitOnSlash plainPath)).1 =
      .error e) :
    EncryptPathDirIV fs encName cache plainPath rootDir =
      (([], some e), cache,
        (pathWalk fs encName rootDir [] (splitOnSlash plainPath)).2) := by
  rw [EncryptPathDirIV_miss fs encName cache plainPath rootDir hne hmiss, herr]

/-- C9 witness: walking `"a"` from root `"r"` over a file system with no
`gocryptfs.diriv` files fails and leaves the cache untouched. -/
theorem EncryptPathDirIV_error_frame_w :
    EncryptPathDirIV fsNone encNameC zeroDirIVCache ['a'] ['r'] =
      (([], some DirIVErr.readFailed), zeroDirIVCache,
        (pathWalk fsNone encNameC ['r'] [] (splitOnSlash ['a'])).2) :=
  EncryptPathDirIV_error_frame fsNone encNameC zeroDirIVCache ['a'] ['r']
    DirIVErr.readFailed (by decide) (by decide) rfl

/-- `strings.Split` never returns an empty list. -/
lemma splitOnSlash_ne_nil (s : GoStr) : splitOnSlash s ≠ [] := by
  cases s with
  | nil => simp [splitOnSlash]
  | cons c rest =>
    by_cases hc : c = '/'
    · simp [splitOnSlash, hc]
    · cases hsp : splitOnSlash rest with
      | nil => simp [splitOnSlash, hc, hsp]
      | cons h t => simp [splitOnSlash, hc, hsp]

/-- Splitting a slash-free string yields the single component. -/
lemma splitOnSlash_no_slash (n : GoStr) (h : '/' ∉ n) :
    splitOnSlash n = [n] := by
  induction n with
  | nil => rfl
  | cons c rest ih =>
    have hc : ¬ c = '/' := by intro hh; exact h (by simp [hh])
    have hr : '/' ∉ rest := by intro hh; exact h (by simp [hh])
    simp [splitOnSlash, hc, ih hr]

/-- Splitting past a slash-free first component. -/
lemma splitOnSlash_append (n s : GoStr) (h : '/' ∉ n) :
    splitOnSlash (n ++ '/' :: s) = n :: splitOnSlash s := by
  induction n with
  | nil => simp [splitOnSlash]
  | cons c rest ih =>
    have hc : ¬ c = '/' := by intro hh; exact h (by simp [hh])
    have hr : '/' ∉ rest := by intro hh; exact h (by simp [hh])
    simp [splitOnSlash, hc, ih hr]

/-- `joinSlash` on a cons with nonempty tail. -/
lemma joinSlash_cons_ne (n : GoStr) (l : List GoStr) (hl : l ≠ []) :
    joinSlash (n :: l) = n ++ '/' :: joinSlash l := by
  cases l with
  | nil => exact absurd rfl hl
  | cons m rest => rfl

/-- Splitting a join of slash-free components is the identity. -/
lemma splitOnSlash_joinSlash (l : List GoStr) (hl : l ≠ [])
    (h : ∀ n ∈ l, '/' ∉ n) :
    splitOnSlash (joinSlash l) = l := by
  induction l with
  | nil => exact absurd rfl hl
  | cons n rest ih =>
    cases rest with
    | nil => exact splitOnSlash_no_slash n (h n (by simp))
    | cons m rs =>
      rw [joinSlash_cons_ne n (m :: rs) (by simp),
        splitOnSlash_append n _ (h n (by simp)),
        ih (by simp) (fun x hx => h x (by simp [hx]))]

/-- A join of at least two components is the join of all but the last,
a slash, and the last. -/
lemma joinSlash_dropLast_getLast :
    ∀ (l : List GoStr) (x : GoStr), 2 ≤ l.length → l.getLast? = some x →
      joinSlash l = joinSlash l.dropLast ++ '/' :: x := by
  intro l
  induction l with
  | nil => intro x h _; simp at h
  | cons n rest ih =>
    intro x hlen hlast
    cases rest with
    | nil => simp at hlen
    | cons m rs =>
      cases rs with
      | nil =>
        rw [List.getLast?_cons_cons, List.getLast?_singleton] at hlast
        cases hlast
        rfl
      | cons r rs2 =>
        have hlast' : (m :: r :: rs2).getLast? = some x := by
          rw [List.getLast?_cons_cons] at hlast; exact hlast
        have ihm := ih x (by simp) hlast'
        rw [joinSlash_cons_ne n _ (by simp), ihm,
          show (n :: m :: r :: rs2).dropLast = n :: (m :: r :: rs2).dropLast
            from rfl,
          joinSlash_cons_ne n ((m :: r :: rs2).dropLast)
            (by rw [show (m :: r :: rs2).dropLast = m :: (r :: rs2).dropLast
              from rfl]; exact List.cons_ne_nil _ _)]
        simp

/-- What a successful walk guarantees: one encrypted name per plain
component, each produced by `encName`, and the last encrypted name is
the encryption of the last plain component under the returned final
IV. -/
lemma pathWalk_ok_spec (fs : FileMap) (enc : GoStr → List Nat → GoStr) :
    ∀ (ns : List GoStr) (wd : GoStr) (curIv : List Nat) (ens : List GoStr)
      (liv : List Nat),
      (pathWalk fs enc wd curIv ns).1 = .ok (ens, liv) →
      ens.length = ns.length ∧
      (∀ e ∈ ens, ∃ n iv, e = enc n iv) ∧
      (ns ≠ [] → ∃ lastPlain, ns.getLast? = some lastPlain ∧
        ens.getLast? = some (enc lastPlain liv)) := by
  intro ns
  induction ns with
  | nil =>
    intro wd curIv ens liv h
    rw [pathWalk] at h
    simp only [Except.ok.injEq, Prod.mk.injEq] at h
    obtain ⟨h1, h2⟩ := h
    subst h1
    refine ⟨rfl, by simp, fun hh => absurd rfl hh⟩
  | cons n rest ih =>
    intro wd curIv ens liv h
    rw [pathWalk] at h
    rcases hrd : ReadDirIV fs wd with ⟨iv, oerr⟩
    rw [hrd] at h
    cases oerr with
    | some e => simp at h
    | none =>
      dsimp only at h
      rcases hw : pathWalk fs enc (filepathJoin wd (enc n iv)) iv rest
        with ⟨res, tr2⟩
      rw [hw] at h
      cases res with
      | error e => simp [Except.map] at h
      | ok q =>
        rcases q with ⟨ens', liv'⟩
        simp only [Except.map, Except.ok.injEq, Prod.mk.injEq] at h
        obtain ⟨h1, h2⟩ := h
        subst h1
        subst h2
        obtain ⟨ihl, ihm, ihlast⟩ :=
          ih (filepathJoin wd (enc n iv)) iv ens' liv' (by rw [hw])
        refine ⟨by simp [ihl], ?_, ?_⟩
        · intro e he
          rcases List.mem_cons.mp he with rfl | he'
          · exact ⟨n, iv, rfl⟩
          · exact ihm e he'
        · intro _
          cases rest with
          | nil =>
            rw [pathWalk] at hw
            simp only [Prod.mk.injEq, Except.ok.injEq] at hw
            obtain ⟨⟨hw1, hw2⟩, _⟩ := hw
            subst hw1
            subst hw2
            exact ⟨n, by simp, by simp⟩
          | cons m rs =>
            obtain ⟨lastPlain, hl1, hl2⟩ := ihlast (by simp)
            have hne' : ens' ≠ [] := by
              intro hh; rw [hh] at ihl; simp at ihl
            obtain ⟨b, t, rfl⟩ := List.exists_cons_of_ne_nil hne'
            exact ⟨lastPlain, by rw [List.getLast?_cons_cons]; exact hl1,
              by rw [List.getLast?_cons_cons]; exact hl2⟩

/-- Unfolding lemma: on a non-root path whose parent hits the cache,
`EncryptPathDirIV` returns `cachedCipherParent ++ "/" ++
encryptName(Base(plainPath), cachedIV)` without touching the cache or
reading any file. -/
lemma EncryptPathDirIV_hit (fs : FileMap)
    (encName : GoStr → List Nat → GoStr) (cache : dirIVCache)
    (plainPath rootDir : GoStr)
    (hne : plainPath ≠ [])
    (hhit : (cache.lookup (filepathDir plainPath)).1 = true) :
    EncryptPathDirIV fs encName cache plainPath rootDir =
      (((cache.lookup (filepathDir plainPath)).2.2 ++ '/' ::
          encName (filepathBase plainPath)
            (cache.lookup (filepathDir plainPath)).2.1, none),
        cache, []) := by
  rcases hlk : cache.lookup (filepathDir plainPath) with ⟨found, ivv, cpp⟩
  replace hhit : found = true := by rw [hlk] at hhit; exact hhit
  subst hhit
  unfold EncryptPathDirIV
  rw [if_neg hne]
  dsimp only
  rw [hlk]
  rfl

/-- C3 counterexample: for the single-component path `"a"` (with a valid
`gocryptfs.diriv` under root `"r"`), a first walking encryption returns
`"ca"` and caches `(".", iv, ".")`; the subsequent cache-hit call
returns `"./ca"` — a different string (the hit branch computes
`cParentDir + "/" + cBaseName` and `filepath.Dir` of a one-component
path is `"."`). -/
theorem EncryptPathDirIV_cacheHit_single_component_differs :
    (EncryptPathDirIV fsA encNameC zeroDirIVCache ['a'] ['r']).1 =
      (['c', 'a'], none) ∧
    (EncryptPathDirIV fsA encNameC
        (EncryptPathDirIV fsA encNameC zeroDirIVCache ['a'] ['r']).2.1
        ['a'] ['r']).1 = (['.', '/', 'c', 'a'], none) ∧
    (['.', '/', 'c', 'a'] : GoStr) ≠ ['c', 'a'] := by
  decide

/-- C3 amended: for plain paths of at least two components (and a
name-encryption function whose outputs are slash-free, as base64url is),
if a cache-missing call succeeds via the walk, the subsequent call — now
hitting the cache entry stored by the walk, over the unchanged file
system — returns exactly the same cipherPath, leaves the cache unchanged
and reads nothing.  (For one-component paths the hit branch instead
prepends `"./"`, see the counterexample.) -/
theorem EncryptPathDirIV_cacheHit_eq_walk (fs : FileMap)
    (encName : GoStr → List Nat → GoStr)
    (hEnc : ∀ n iv, '/' ∉ encName n iv)
    (cache : dirIVCache) (plainPath rootDir : GoStr)
    (hdepth : 2 ≤ (splitOnSlash plainPath).length)
    (hmiss : (cache.lookup (filepathDir plainPath)).1 = false)
    (cp : GoStr) (cache' : dirIVCache) (tr : List GoStr)
    (hfst : EncryptPathDirIV fs encName cache plainPath rootDir =
      ((cp, none), cache', tr)) :
    EncryptPathDirIV fs encName cache' plainPath rootDir =
      ((cp, none), cache', []) := by
  have hne : plainPath ≠ [] := by
    intro hh
    rw [hh] at hdepth
    simp [splitOnSlash] at hdepth
  rw [EncryptPathDirIV_miss fs encName cache plainPath rootDir hne hmiss]
    at hfst
  rcases hw : (pathWalk fs encName rootDir [] (splitOnSlash plainPath)).1
    with e | ⟨ens, liv⟩
  · rw [hw] at hfst
    simp at hfst
  · rw [hw] at hfst
    simp only [Prod.mk.injEq] at hfst
    obtain ⟨⟨hcp, -⟩, hcache, -⟩ := hfst
    subst hcp
    subst hcache
    obtain ⟨hlenE, hshape, hlastE⟩ :=
      pathWalk_ok_spec fs encName (splitOnSlash plainPath) rootDir [] ens liv hw
    obtain ⟨lastPlain, hlastNs, hlastEns⟩ :=
      hlastE (splitOnSlash_ne_nil plainPath)
    have henslen : 2 ≤ ens.length := by rw [hlenE]; exact hdepth
    have hslashfree : ∀ e ∈ ens, '/' ∉ e := by
      intro e he
      obtain ⟨n, iv, rfl⟩ := hshape e he
      exact hEnc n iv
    have hsplitJ : splitOnSlash (joinSlash ens) = ens :=
      splitOnSlash_joinSlash ens
        (by intro hh; rw [hh] at henslen; simp at henslen) hslashfree
    have hjoin := joinSlash_dropLast_getLast ens (encName lastPlain liv)
      henslen hlastEns
    have hbase : filepathBase plainPath = lastPlain := by
      unfold filepathBase
      rw [hlastNs]
    obtain ⟨a, t, rfl⟩ := List.exists_cons_of_ne_nil
      (show ens ≠ [] by intro hh; rw [hh] at henslen; simp at henslen)
    obtain ⟨b, t2, rfl⟩ := List.exists_cons_of_ne_nil
      (show t ≠ [] by intro hh; rw [hh] at henslen; simp at henslen)
    have hdirJ : filepathDir (joinSlash (a :: b :: t2)) =
        joinSlash (a :: b :: t2).dropLast := by
      unfold filepathDir
      rw [hsplitJ]
    have hhit : ((cache.store (filepathDir plainPath) liv
        (filepathDir (joinSlash (a :: b :: t2)))).lookup
        (filepathDir plainPath)).1 = true := by
      simp [dirIVCache.store, dirIVCache.lookup]
    rw [EncryptPathDirIV_hit fs encName _ plainPath rootDir hne hhit]
    have hlk2 : ((cache.store (filepathDir plainPath) liv
        (filepathDir (joinSlash (a :: b :: t2)))).lookup
        (filepathDir plainPath)) =
        (true, liv, filepathDir (joinSlash (a :: b :: t2))) := by
      simp [dirIVCache.store, dirIVCache.lookup]
    rw [hlk2, hbase, hdirJ]
    rw [← hjoin]

/-- C3 amended witness: the two-component path `"a/b"` over `fsAB`; the
cache-hit call reproduces the walk's cipherPath `"ca/cb"` exactly. -/
theorem EncryptPathDirIV_cacheHit_eq_walk_w :
    EncryptPathDirIV fsAB encNameF
      { cleared := false, iv := List.replicate 16 1, dir := ['a'],
        translatedDir := ['c', 'a'] }
      ['a', '/', 'b'] ['r'] =
      ((['c', 'a', '/', 'c', 'b'], none),
        { cleared := false, iv := List.replicate 16 1, dir := ['a'],
          translatedDir := ['c', 'a'] }, []) :=
  EncryptPathDirIV_cacheHit_eq_walk fsAB encNameF
    (by simp [encNameF]) zeroDirIVCache ['a', '/', 'b'] ['r']
    (by decide) (by decide)
    ['c', 'a', '/', 'c', 'b']
    { cleared := false, iv := List.replicate 16 1, dir := ['a'],
      translatedDir := ['c', 'a'] }
    [('r' :: '/' :: DirIVFilename),
      ('r' :: '/' :: 'c' :: 'a' :: '/' :: DirIVFilename)]
    (by decide)
